import Mathlib

/-!
# Verification of the Bitcoin transaction codec (`src/lib.rs`)

Shallow embedding of the serialization library: `CompactSize`, `Txid`,
`OutPoint`, `Script`, `TransactionInput`, `BitcoinTransaction`, together with
their `to_bytes` / `from_bytes` operations, and proofs about them.

Bytes are modelled as `Nat` (with `% 256` marking the u8 reads the Rust code
performs on slice elements), byte strings as `List Nat`, and the Rust `usize`
arithmetic is modelled exactly, with the overflow of `var_int_len + script_len`
in `Script::from_bytes` surfacing as a crash (see `PResult.crash`).

A fallible Rust function returning `Result<T, BitcoinError>` that can also
panic is modelled as a total function into `PResult T`, whose `crash`
constructor stands for a Rust panic/abort (out-of-range slice indexing, or an
arithmetic overflow that panics in debug builds and leads to an out-of-range
slice in release builds).
-/

/-- The two error kinds of the library (`enum BitcoinError`). -/
inductive BitcoinError where
  | InsufficientBytes : BitcoinError
  | InvalidFormat : BitcoinError
deriving DecidableEq, Repr

/-- Result of a fallible decode. `crash` models a Rust panic (not a value the
Rust function returns, but an abort of the call): it arises from out-of-range
slice indexing or from `usize` overflow. -/
inductive PResult (α : Type) where
  | ok : α → PResult α
  | err : BitcoinError → PResult α
  | crash : PResult α
deriving DecidableEq, Repr

/-- Little-endian read of a list of bytes (each taken mod 256, as the u8 reads
in the Rust code): models `uN::from_le_bytes`. -/
def le_bytes : List Nat → Nat
  | [] => 0
  | b :: rest => b % 256 + 256 * le_bytes rest

/-- The 2 little-endian bytes of `v % 2^16`: models `(v as u16).to_le_bytes()`. -/
def u16_le (v : Nat) : List Nat :=
  [v % 256, v / 256 % 256]

/-- The 4 little-endian bytes of `v % 2^32`: models `(v as u32).to_le_bytes()`. -/
def u32_le (v : Nat) : List Nat :=
  [v % 256, v / 256 % 256, v / 2 ^ 16 % 256, v / 2 ^ 24 % 256]

/-- The 8 little-endian bytes of `v % 2^64`: models `u64::to_le_bytes`. -/
def u64_le (v : Nat) : List Nat :=
  [v % 256, v / 256 % 256, v / 2 ^ 16 % 256, v / 2 ^ 24 % 256,
   v / 2 ^ 32 % 256, v / 2 ^ 40 % 256, v / 2 ^ 48 % 256, v / 2 ^ 56 % 256]

/-- `struct CompactSize { pub value: u64 }`. -/
structure CompactSize where
  value : Nat
deriving DecidableEq, Repr

/-- `CompactSize::new`. -/
def CompactSize.new (value : Nat) : CompactSize :=
  { value := value }

/-- Rust type invariant of `CompactSize`: the field is a `u64`. -/
def CompactSize.wf (c : CompactSize) : Prop :=
  c.value < 2 ^ 64

instance (c : CompactSize) : Decidable c.wf := by
  unfold CompactSize.wf; infer_instance

/-- `CompactSize::to_bytes` (src/lib.rs:23-49): four-armed match on the value. -/
def CompactSize.to_bytes (c : CompactSize) : List Nat :=
  let value := c.value
  if value ≤ 0xFC then
    [value]
  else if value ≤ 0xFFFF then
    0xFD :: u16_le value
  else if value ≤ 0xFFFFFFFF then
    0xFE :: u32_le value
  else
    0xFF :: u64_le value

/-- `CompactSize::from_bytes` (src/lib.rs:51-98). The nested list matches model
the `bytes.len() < k` guards followed by the indexing `bytes[1] ..`; the
`% 256` on the first byte models that `bytes[0]` is a u8 (the Rust `match` on
it is exhaustive over `0x00..=0xFF`). -/
def CompactSize.from_bytes : List Nat → PResult (CompactSize × Nat)
  | [] => .err .InsufficientBytes
  | b0 :: rest =>
    let b := b0 % 256
    if b ≤ 0xFC then
      .ok (CompactSize.new b, 1)
    else if b = 0xFD then
      match rest with
      | b1 :: b2 :: _ =>
        let value := le_bytes [b1, b2]
        if value < 0xFD then .err .InvalidFormat
        else .ok (CompactSize.new value, 3)
      | _ => .err .InsufficientBytes
    else if b = 0xFE then
      match rest with
      | b1 :: b2 :: b3 :: b4 :: _ =>
        let value := le_bytes [b1, b2, b3, b4]
        if value ≤ 0xFFFF then .err .InvalidFormat
        else .ok (CompactSize.new value, 5)
      | _ => .err .InsufficientBytes
    else
      match rest with
      | b1 :: b2 :: b3 :: b4 :: b5 :: b6 :: b7 :: b8 :: _ =>
        let value := le_bytes [b1, b2, b3, b4, b5, b6, b7, b8]
        if value ≤ 0xFFFFFFFF then .err .InvalidFormat
        else .ok (CompactSize.new value, 9)
      | _ => .err .InsufficientBytes

/-- `struct Txid(pub [u8; 32])`. -/
structure Txid where
  bytes : List Nat
deriving DecidableEq, Repr

/-- Rust type invariant of `Txid`: an array of exactly 32 u8. -/
def Txid.wf (t : Txid) : Prop :=
  t.bytes.length = 32 ∧ ∀ b ∈ t.bytes, b < 256

instance (t : Txid) : Decidable t.wf := by
  unfold Txid.wf; infer_instance

/-- `struct OutPoint { pub txid: Txid, pub vout: u32 }`. -/
structure OutPoint where
  txid : Txid
  vout : Nat
deriving DecidableEq, Repr

/-- `OutPoint::new`. -/
def OutPoint.new (txid : List Nat) (vout : Nat) : OutPoint :=
  { txid := ⟨txid⟩, vout := vout }

/-- Rust type invariant of `OutPoint`: 32-byte txid and a u32 vout. -/
def OutPoint.wf (o : OutPoint) : Prop :=
  o.txid.wf ∧ o.vout < 2 ^ 32

instance (o : OutPoint) : Decidable o.wf := by
  unfold OutPoint.wf; infer_instance

/-- `OutPoint::to_bytes` (src/lib.rs:157-163): txid bytes then vout LE. -/
def OutPoint.to_bytes (o : OutPoint) : List Nat :=
  o.txid.bytes ++ u32_le o.vout

/-- `OutPoint::from_bytes` (src/lib.rs:165-177). -/
def OutPoint.from_bytes (bytes : List Nat) : PResult (OutPoint × Nat) :=
  if bytes.length < 36 then
    .err .InsufficientBytes
  else
    let txid : Txid := ⟨bytes.take 32⟩
    let vout := le_bytes ((bytes.drop 32).take 4)
    .ok ({ txid := txid, vout := vout }, 36)

/-- `struct Script { pub bytes: Vec<u8> }`. -/
structure Script where
  bytes : List Nat
deriving DecidableEq, Repr

/-- `Script::new`. -/
def Script.new (bytes : List Nat) : Script :=
  { bytes := bytes }

/-- Rust type invariant of `Script`: a `Vec<u8>`, whose length can never
exceed `isize::MAX`. -/
def Script.wf (s : Script) : Prop :=
  s.bytes.length < 2 ^ 63 ∧ ∀ b ∈ s.bytes, b < 256

instance (s : Script) : Decidable s.wf := by
  unfold Script.wf; infer_instance

/-- `Script::to_bytes` (src/lib.rs:190-200): CompactSize of the length, then
the raw bytes (the `len() as usize -> u64` cast is lossless on 64-bit). -/
def Script.to_bytes (s : Script) : List Nat :=
  (CompactSize.new s.bytes.length).to_bytes ++ s.bytes

/-- `Script::from_bytes` (src/lib.rs:202-227). Any CompactSize error is
relabelled `InsufficientBytes`. `total_len = var_int_len + script_len` is a
`usize` addition: when it reaches `2^64` the Rust code crashes (overflow panic
in debug builds; in release builds the sum wraps to a value `< var_int_len`,
the length guard passes because the input holds at least `var_int_len` bytes,
and the slice `bytes[var_int_len..total_len]` with start > end panics). -/
def Script.from_bytes (bytes : List Nat) : PResult (Script × Nat) :=
  match CompactSize.from_bytes bytes with
  | .err _ => .err .InsufficientBytes
  | .crash => .crash
  | .ok (compact_size_len, var_int_len) =>
    let script_len := compact_size_len.value
    if var_int_len + script_len < 2 ^ 64 then
      let total_len := var_int_len + script_len
      if bytes.length < total_len then
        .err .InsufficientBytes
      else
        .ok ({ bytes := (bytes.drop var_int_len).take script_len }, total_len)
    else
      .crash

/-- `struct TransactionInput`. -/
structure TransactionInput where
  previous_output : OutPoint
  script_sig : Script
  sequence : Nat
deriving DecidableEq, Repr

/-- `TransactionInput::new`. -/
def TransactionInput.new (previous_output : OutPoint) (script_sig : Script)
    (sequence : Nat) : TransactionInput :=
  { previous_output := previous_output, script_sig := script_sig,
    sequence := sequence }

/-- Rust type invariant of `TransactionInput`: well-formed fields, u32 sequence. -/
def TransactionInput.wf (i : TransactionInput) : Prop :=
  i.previous_output.wf ∧ i.script_sig.wf ∧ i.sequence < 2 ^ 32

instance (i : TransactionInput) : Decidable i.wf := by
  unfold TransactionInput.wf; infer_instance

/-- `TransactionInput::to_bytes` (src/lib.rs:255-262). -/
def TransactionInput.to_bytes (i : TransactionInput) : List Nat :=
  i.previous_output.to_bytes ++ i.script_sig.to_bytes ++ u32_le i.sequence

/-- `TransactionInput::from_bytes` (src/lib.rs:264-307). After the Script
parse the source checks `bytes.len() < 4` (not the remaining bytes past
`sequence_start`), then slices `bytes[sequence_start..sequence_start + 4]`,
which panics when fewer than 4 bytes remain there — modelled by the `crash`
branch. The `try_into` on that slice (whose `Err` arm returns `InvalidFormat`
in the source) fails exactly when the slice is not 4 bytes long. -/
def TransactionInput.from_bytes (bytes : List Nat) :
    PResult (TransactionInput × Nat) :=
  if bytes.length < 41 then
    .err .InsufficientBytes
  else
    let txid : Txid := ⟨bytes.take 32⟩
    let vout := le_bytes ((bytes.drop 32).take 4)
    let previous_output : OutPoint := { txid := txid, vout := vout }
    match Script.from_bytes (bytes.drop 36) with
    | .err _ => .err .InsufficientBytes
    | .crash => .crash
    | .ok (script_sig, script_bytes) =>
      let sequence_start := 36 + script_bytes
      if bytes.length < 4 then
        .err .InsufficientBytes
      else if bytes.length < sequence_start + 4 then
        .crash
      else
        let sequence_bytes := (bytes.drop sequence_start).take 4
        if sequence_bytes.length = 4 then
          let sequence := le_bytes sequence_bytes
          .ok ({ previous_output := previous_output, script_sig := script_sig,
                 sequence := sequence }, sequence_start + 4)
        else
          .err .InvalidFormat

/-- `struct BitcoinTransaction`. -/
structure BitcoinTransaction where
  version : Nat
  inputs : List TransactionInput
  lock_time : Nat
deriving DecidableEq, Repr

/-- `BitcoinTransaction::new`. -/
def BitcoinTransaction.new (version : Nat) (inputs : List TransactionInput)
    (lock_time : Nat) : BitcoinTransaction :=
  { version := version, inputs := inputs, lock_time := lock_time }

/-- Rust type invariant of `BitcoinTransaction`: u32 version and lock_time,
a `Vec` of well-formed inputs. -/
def BitcoinTransaction.wf (t : BitcoinTransaction) : Prop :=
  t.version < 2 ^ 32 ∧ t.lock_time < 2 ^ 32 ∧
    t.inputs.length < 2 ^ 63 ∧ ∀ i ∈ t.inputs, i.wf

instance (t : BitcoinTransaction) : Decidable t.wf := by
  unfold BitcoinTransaction.wf; infer_instance

/-- `BitcoinTransaction::to_bytes` (src/lib.rs:326-345): version LE, then
CompactSize of the input count, then each input, then lock_time LE. -/
def BitcoinTransaction.to_bytes (t : BitcoinTransaction) : List Nat :=
  u32_le t.version ++ (CompactSize.new t.inputs.length).to_bytes ++
    (t.inputs.map TransactionInput.to_bytes).flatten ++ u32_le t.lock_time

/-- Modelled from the spec: helper loop of `BitcoinTransaction::from_bytes`
(spec §4.6 step 3, the source body is `todo!()`): decode exactly `n`
`TransactionInput`s front-to-back, propagating any failure, returning the
inputs and the total bytes consumed. -/
def decode_inputs : Nat → List Nat → PResult (List TransactionInput × Nat)
  | 0, _ => .ok ([], 0)
  | n + 1, bytes =>
    match TransactionInput.from_bytes bytes with
    | .err e => .err e
    | .crash => .crash
    | .ok (i, c) =>
      match decode_inputs n (bytes.drop c) with
      | .err e => .err e
      | .crash => .crash
      | .ok (rest, c') => .ok (i :: rest, c + c')

/-- Modelled from the spec: `BitcoinTransaction::from_bytes` is left `todo!()`
in the source (src/lib.rs:347-352); spec §4.6 supplies the required contract,
followed here: 4-byte LE version (else `InsufficientBytes`); CompactSize input
count, failure propagated; exactly that many inputs decoded in sequence,
failures propagated; 4-byte LE lock_time (else `InsufficientBytes`); returns
the transaction and the total consumed count, ignoring trailing bytes. -/
def BitcoinTransaction.from_bytes (bytes : List Nat) :
    PResult (BitcoinTransaction × Nat) :=
  if bytes.length < 4 then
    .err .InsufficientBytes
  else
    let version := le_bytes (bytes.take 4)
    match CompactSize.from_bytes (bytes.drop 4) with
    | .err e => .err e
    | .crash => .crash
    | .ok (count, p) =>
      match decode_inputs count.value ((bytes.drop 4).drop p) with
      | .err e => .err e
      | .crash => .crash
      | .ok (inputs, c) =>
        let off := 4 + p + c
        if bytes.length < off + 4 then
          .err .InsufficientBytes
        else
          let lock_time := le_bytes ((bytes.drop off).take 4)
          .ok ({ version := version, inputs := inputs,
                 lock_time := lock_time }, off + 4)

/-! ## Evaluation lemmas for `CompactSize.from_bytes`, one per source branch -/

theorem cs_fb_nil : CompactSize.from_bytes [] = .err .InsufficientBytes := rfl

theorem cs_fb_one (b0 : Nat) (rest : List Nat) (h : b0 % 256 ≤ 0xFC) :
    CompactSize.from_bytes (b0 :: rest) = .ok (CompactSize.new (b0 % 256), 1) := by
  simp only [CompactSize.from_bytes]
  rw [if_pos h]

theorem cs_fb_fd (b1 b2 : Nat) (rest : List Nat) :
    CompactSize.from_bytes (0xFD :: b1 :: b2 :: rest) =
      if b1 % 256 + 256 * (b2 % 256) < 0xFD then .err .InvalidFormat
      else .ok (.new (b1 % 256 + 256 * (b2 % 256)), 3) := by
  simp only [CompactSize.from_bytes, le_bytes]
  norm_num

theorem cs_fb_fd_short (rest : List Nat) (h : rest.length < 2) :
    CompactSize.from_bytes (0xFD :: rest) = .err .InsufficientBytes := by
  match rest with
  | [] => rfl
  | [b1] => rfl
  | b1 :: b2 :: r => simp only [List.length_cons] at h; omega

theorem cs_fb_fe (b1 b2 b3 b4 : Nat) (rest : List Nat) :
    CompactSize.from_bytes (0xFE :: b1 :: b2 :: b3 :: b4 :: rest) =
      if b1 % 256 + 256 * (b2 % 256 + 256 * (b3 % 256 + 256 * (b4 % 256))) ≤ 0xFFFF
      then .err .InvalidFormat
      else .ok (.new (b1 % 256 + 256 * (b2 % 256 + 256 * (b3 % 256 + 256 * (b4 % 256)))), 5) := by
  simp only [CompactSize.from_bytes, le_bytes]
  norm_num

theorem cs_fb_fe_short (rest : List Nat) (h : rest.length < 4) :
    CompactSize.from_bytes (0xFE :: rest) = .err .InsufficientBytes := by
  match rest with
  | [] => rfl
  | [b1] => rfl
  | [b1, b2] => rfl
  | [b1, b2, b3] => rfl
  | b1 :: b2 :: b3 :: b4 :: r => simp only [List.length_cons] at h; omega

set_option maxHeartbeats 1000000 in
theorem cs_fb_ff (b1 b2 b3 b4 b5 b6 b7 b8 : Nat) (rest : List Nat) :
    CompactSize.from_bytes (0xFF :: b1 :: b2 :: b3 :: b4 :: b5 :: b6 :: b7 :: b8 :: rest) =
      if b1 % 256 + 256 * (b2 % 256 + 256 * (b3 % 256 + 256 * (b4 % 256 + 256 *
           (b5 % 256 + 256 * (b6 % 256 + 256 * (b7 % 256 + 256 * (b8 % 256))))))) ≤ 0xFFFFFFFF
      then .err .InvalidFormat
      else .ok (.new (b1 % 256 + 256 * (b2 % 256 + 256 * (b3 % 256 + 256 * (b4 % 256 + 256 *
           (b5 % 256 + 256 * (b6 % 256 + 256 * (b7 % 256 + 256 * (b8 % 256)))))))), 9) := by
  simp only [CompactSize.from_bytes, le_bytes]
  norm_num

theorem cs_fb_ff_short (rest : List Nat) (h : rest.length < 8) :
    CompactSize.from_bytes (0xFF :: rest) = .err .InsufficientBytes := by
  match rest with
  | [] => rfl
  | [b1] => rfl
  | [b1, b2] => rfl
  | [b1, b2, b3] => rfl
  | [b1, b2, b3, b4] => rfl
  | [b1, b2, b3, b4, b5] => rfl
  | [b1, b2, b3, b4, b5, b6] => rfl
  | [b1, b2, b3, b4, b5, b6, b7] => rfl
  | b1 :: b2 :: b3 :: b4 :: b5 :: b6 :: b7 :: b8 :: r => simp only [List.length_cons] at h; omega

/-! ## CompactSize round trip -/

/-- The four branch shapes of `CompactSize.to_bytes`, made explicit. -/
theorem cs_tb_one (v : Nat) (h1 : v ≤ 0xFC) :
    (CompactSize.new v).to_bytes = [v] := by
  simp only [CompactSize.to_bytes, CompactSize.new]
  rw [if_pos h1]

theorem cs_tb_fd (v : Nat) (h1 : ¬v ≤ 0xFC) (h2 : v ≤ 0xFFFF) :
    (CompactSize.new v).to_bytes = [0xFD, v % 256, v / 256 % 256] := by
  simp only [CompactSize.to_bytes, CompactSize.new, u16_le]
  rw [if_neg h1, if_pos h2]

theorem cs_tb_fe (v : Nat) (h2 : ¬v ≤ 0xFFFF) (h3 : v ≤ 0xFFFFFFFF) :
    (CompactSize.new v).to_bytes =
      [0xFE, v % 256, v / 256 % 256, v / 2 ^ 16 % 256, v / 2 ^ 24 % 256] := by
  have h1 : ¬v ≤ 0xFC := by omega
  simp only [CompactSize.to_bytes, CompactSize.new, u32_le]
  rw [if_neg h1, if_neg h2, if_pos h3]

theorem cs_tb_ff (v : Nat) (h3 : ¬v ≤ 0xFFFFFFFF) :
    (CompactSize.new v).to_bytes =
      [0xFF, v % 256, v / 256 % 256, v / 2 ^ 16 % 256, v / 2 ^ 24 % 256,
       v / 2 ^ 32 % 256, v / 2 ^ 40 % 256, v / 2 ^ 48 % 256, v / 2 ^ 56 % 256] := by
  have h1 : ¬v ≤ 0xFC := by omega
  have h2 : ¬v ≤ 0xFFFF := by omega
  simp only [CompactSize.to_bytes, CompactSize.new, u64_le]
  rw [if_neg h1, if_neg h2, if_neg h3]

/-- Decoding the encoding of any u64 value, with arbitrary trailing bytes,
returns the value and the encoded length. -/
theorem cs_decode_encode (v : Nat) (hv : v < 2 ^ 64) (extra : List Nat) :
    CompactSize.from_bytes ((CompactSize.new v).to_bytes ++ extra) =
      .ok (CompactSize.new v, (CompactSize.new v).to_bytes.length) := by
  by_cases h1 : v ≤ 0xFC
  · rw [cs_tb_one v h1]
    simp only [List.cons_append, List.nil_append, List.length_cons,
      List.length_nil]
    rw [cs_fb_one v extra (by omega)]
    have h' : v % 256 = v := Nat.mod_eq_of_lt (by omega)
    rw [h']
  · by_cases h2 : v ≤ 0xFFFF
    · rw [cs_tb_fd v h1 h2]
      simp only [List.cons_append, List.nil_append, List.length_cons,
        List.length_nil]
      rw [cs_fb_fd, if_neg (by omega)]
      have hval : v % 256 % 256 + 256 * (v / 256 % 256 % 256) = v := by omega
      rw [hval]
    · by_cases h3 : v ≤ 0xFFFFFFFF
      · rw [cs_tb_fe v h2 h3]
        simp only [List.cons_append, List.nil_append, List.length_cons,
          List.length_nil]
        rw [cs_fb_fe, if_neg (by omega)]
        have hval : v % 256 % 256 + 256 * (v / 256 % 256 % 256 + 256 *
            (v / 2 ^ 16 % 256 % 256 + 256 * (v / 2 ^ 24 % 256 % 256))) = v := by
          omega
        rw [hval]
      · rw [cs_tb_ff v h3]
        simp only [List.cons_append, List.nil_append, List.length_cons,
          List.length_nil]
        rw [cs_fb_ff, if_neg (by omega)]
        have hval : v % 256 % 256 + 256 * (v / 256 % 256 % 256 + 256 *
            (v / 2 ^ 16 % 256 % 256 + 256 * (v / 2 ^ 24 % 256 % 256 + 256 *
            (v / 2 ^ 32 % 256 % 256 + 256 * (v / 2 ^ 40 % 256 % 256 + 256 *
            (v / 2 ^ 48 % 256 % 256 + 256 * (v / 2 ^ 56 % 256 % 256))))))) = v := by
          omega
        rw [hval]

/-- Upper bound on the encoded length. -/
theorem cs_tb_len_le (v : Nat) : (CompactSize.new v).to_bytes.length ≤ 9 := by
  simp only [CompactSize.to_bytes, CompactSize.new]
  split_ifs <;> simp [u16_le, u32_le, u64_le]

/-- The encoding is never empty. -/
theorem cs_tb_len_pos (v : Nat) : 1 ≤ (CompactSize.new v).to_bytes.length := by
  simp only [CompactSize.to_bytes, CompactSize.new]
  split_ifs <;> simp [u16_le, u32_le, u64_le]

set_option maxHeartbeats 2000000 in
/-- Canonicity: an accepted CompactSize decode consumed exactly the canonical
encoding of the decoded value. -/
theorem cs_canonical (bytes : List Nat) (hw : ∀ x ∈ bytes, x < 256)
    (c : CompactSize) (n : Nat)
    (h : CompactSize.from_bytes bytes = .ok (c, n)) :
    c.to_bytes.length = n ∧ c.to_bytes = bytes.take n := by
  match bytes with
  | [] => exact absurd h (by simp [cs_fb_nil])
  | b0 :: rest =>
    have hb0 : b0 < 256 := hw b0 (by simp)
    by_cases h1 : b0 ≤ 0xFC
    · rw [cs_fb_one b0 rest (by omega), Nat.mod_eq_of_lt hb0] at h
      simp only [PResult.ok.injEq, Prod.mk.injEq] at h
      obtain ⟨rfl, rfl⟩ := h
      rw [cs_tb_one b0 h1]
      simp
    · by_cases h2 : b0 = 0xFD
      · subst h2
        match rest with
        | [] => rw [cs_fb_fd_short _ (by simp)] at h; exact absurd h (by simp)
        | [b1] => rw [cs_fb_fd_short _ (by simp)] at h; exact absurd h (by simp)
        | b1 :: b2 :: r =>
          have hb1 : b1 < 256 := hw b1 (by simp)
          have hb2 : b2 < 256 := hw b2 (by simp)
          rw [cs_fb_fd, Nat.mod_eq_of_lt hb1, Nat.mod_eq_of_lt hb2] at h
          by_cases hv : b1 + 256 * b2 < 0xFD
          · rw [if_pos hv] at h; exact absurd h (by simp)
          · rw [if_neg hv] at h
            simp only [PResult.ok.injEq, Prod.mk.injEq] at h
            obtain ⟨rfl, rfl⟩ := h
            have e1 : (b1 + 256 * b2) % 256 = b1 := by omega
            have e2 : (b1 + 256 * b2) / 256 % 256 = b2 := by omega
            rw [cs_tb_fd _ (by omega) (by omega), e1, e2]
            simp
      · by_cases h3 : b0 = 0xFE
        · subst h3
          match rest with
          | [] => rw [cs_fb_fe_short _ (by simp)] at h; exact absurd h (by simp)
          | [b1] => rw [cs_fb_fe_short _ (by simp)] at h; exact absurd h (by simp)
          | [b1, b2] => rw [cs_fb_fe_short _ (by simp)] at h; exact absurd h (by simp)
          | [b1, b2, b3] =>
            rw [cs_fb_fe_short _ (by simp)] at h; exact absurd h (by simp)
          | b1 :: b2 :: b3 :: b4 :: r =>
            have hb1 : b1 < 256 := hw b1 (by simp)
            have hb2 : b2 < 256 := hw b2 (by simp)
            have hb3 : b3 < 256 := hw b3 (by simp)
            have hb4 : b4 < 256 := hw b4 (by simp)
            rw [cs_fb_fe, Nat.mod_eq_of_lt hb1, Nat.mod_eq_of_lt hb2,
              Nat.mod_eq_of_lt hb3, Nat.mod_eq_of_lt hb4] at h
            by_cases hv : b1 + 256 * (b2 + 256 * (b3 + 256 * b4)) ≤ 0xFFFF
            · rw [if_pos hv] at h; exact absurd h (by simp)
            · rw [if_neg hv] at h
              simp only [PResult.ok.injEq, Prod.mk.injEq] at h
              obtain ⟨rfl, rfl⟩ := h
              have e1 : (b1 + 256 * (b2 + 256 * (b3 + 256 * b4))) % 256 = b1 := by
                omega
              have e2 : (b1 + 256 * (b2 + 256 * (b3 + 256 * b4))) / 256 % 256 = b2 := by
                omega
              have e3 : (b1 + 256 * (b2 + 256 * (b3 + 256 * b4))) / 2 ^ 16 % 256 = b3 := by
                omega
              have e4 : (b1 + 256 * (b2 + 256 * (b3 + 256 * b4))) / 2 ^ 24 % 256 = b4 := by
                omega
              rw [cs_tb_fe _ (by omega) (by omega), e1, e2, e3, e4]
              simp
        · have h4 : b0 = 0xFF := by omega
          subst h4
          match rest with
          | [] => rw [cs_fb_ff_short _ (by simp)] at h; exact absurd h (by simp)
          | [b1] => rw [cs_fb_ff_short _ (by simp)] at h; exact absurd h (by simp)
          | [b1, b2] => rw [cs_fb_ff_short _ (by simp)] at h; exact absurd h (by simp)
          | [b1, b2, b3] =>
            rw [cs_fb_ff_short _ (by simp)] at h; exact absurd h (by simp)
          | [b1, b2, b3, b4] =>
            rw [cs_fb_ff_short _ (by simp)] at h; exact absurd h (by simp)
          | [b1, b2, b3, b4, b5] =>
            rw [cs_fb_ff_short _ (by simp)] at h; exact absurd h (by simp)
          | [b1, b2, b3, b4, b5, b6] =>
            rw [cs_fb_ff_short _ (by simp)] at h; exact absurd h (by simp)
          | [b1, b2, b3, b4, b5, b6, b7] =>
            rw [cs_fb_ff_short _ (by simp)] at h; exact absurd h (by simp)
          | b1 :: b2 :: b3 :: b4 :: b5 :: b6 :: b7 :: b8 :: r =>
            have hb1 : b1 < 256 := hw b1 (by simp)
            have hb2 : b2 < 256 := hw b2 (by simp)
            have hb3 : b3 < 256 := hw b3 (by simp)
            have hb4 : b4 < 256 := hw b4 (by simp)
            have hb5 : b5 < 256 := hw b5 (by simp)
            have hb6 : b6 < 256 := hw b6 (by simp)
            have hb7 : b7 < 256 := hw b7 (by simp)
            have hb8 : b8 < 256 := hw b8 (by simp)
            rw [cs_fb_ff, Nat.mod_eq_of_lt hb1, Nat.mod_eq_of_lt hb2,
              Nat.mod_eq_of_lt hb3, Nat.mod_eq_of_lt hb4, Nat.mod_eq_of_lt hb5,
              Nat.mod_eq_of_lt hb6, Nat.mod_eq_of_lt hb7, Nat.mod_eq_of_lt hb8] at h
            set v := b1 + 256 * (b2 + 256 * (b3 + 256 * (b4 + 256 *
              (b5 + 256 * (b6 + 256 * (b7 + 256 * b8)))))) with hvdef
            by_cases hv : v ≤ 0xFFFFFFFF
            · rw [if_pos hv] at h; exact absurd h (by simp)
            · rw [if_neg hv] at h
              simp only [PResult.ok.injEq, Prod.mk.injEq] at h
              obtain ⟨rfl, rfl⟩ := h
              have e1 : v % 256 = b1 := by omega
              have e2 : v / 256 % 256 = b2 := by omega
              have e3 : v / 2 ^ 16 % 256 = b3 := by omega
              have e4 : v / 2 ^ 24 % 256 = b4 := by omega
              have e5 : v / 2 ^ 32 % 256 = b5 := by omega
              have e6 : v / 2 ^ 40 % 256 = b6 := by omega
              have e7 : v / 2 ^ 48 % 256 = b7 := by omega
              have e8 : v / 2 ^ 56 % 256 = b8 := by omega
              rw [cs_tb_ff _ (by omega), e1, e2, e3, e4, e5, e6, e7, e8]
              simp

/-! ## Little-endian helper lemmas -/

theorem u32_le_length (v : Nat) : (u32_le v).length = 4 := rfl

theorem le_bytes_u32 (v : Nat) : le_bytes (u32_le v) = v % 2 ^ 32 := by
  simp only [u32_le, le_bytes]
  omega

/-! ## OutPoint round trip -/

/-- Decoding the 36-byte encoding of a well-formed OutPoint, with arbitrary
trailing bytes, returns the OutPoint and 36. -/
theorem op_decode_encode (o : OutPoint) (ho : o.wf) (extra : List Nat) :
    OutPoint.from_bytes (o.to_bytes ++ extra) = .ok (o, 36) := by
  obtain ⟨⟨h32, _⟩, hvout⟩ := ho
  unfold OutPoint.from_bytes OutPoint.to_bytes
  rw [List.append_assoc]
  rw [if_neg (by simp [h32, u32_le]; omega)]
  rw [List.take_left' h32, List.drop_left' h32,
    List.take_left' (u32_le_length o.vout), le_bytes_u32,
    Nat.mod_eq_of_lt hvout]

/-! ## Script round trip -/

/-- Decoding the encoding of a well-formed Script, with arbitrary trailing
bytes, returns the Script and its encoded length. -/
theorem script_decode_encode (s : Script) (hs : s.bytes.length < 2 ^ 63)
    (extra : List Nat) :
    Script.from_bytes (s.to_bytes ++ extra) = .ok (s, s.to_bytes.length) := by
  unfold Script.from_bytes Script.to_bytes
  rw [List.append_assoc,
    cs_decode_encode s.bytes.length (by omega) (s.bytes ++ extra)]
  have hp := cs_tb_len_le s.bytes.length
  have hv : (CompactSize.new s.bytes.length).value = s.bytes.length := rfl
  simp only [hv]
  rw [if_pos (by omega)]
  rw [if_neg (by simp), List.drop_left, List.take_left]
  simp

/-! ## TransactionInput round trip -/

theorem txin_decode_encode (i : TransactionInput) (hi : i.wf) (extra : List Nat) :
    TransactionInput.from_bytes (i.to_bytes ++ extra) = .ok (i, i.to_bytes.length) := by
  obtain ⟨⟨⟨h32, hb⟩, hvout⟩, ⟨hslen, hsb⟩, hseq⟩ := hi
  have hp9 := cs_tb_len_le i.script_sig.bytes.length
  have hp1 := cs_tb_len_pos i.script_sig.bytes.length
  have hSlen : i.script_sig.to_bytes.length =
      (CompactSize.new i.script_sig.bytes.length).to_bytes.length +
        i.script_sig.bytes.length := by
    simp [Script.to_bytes]
  unfold TransactionInput.from_bytes TransactionInput.to_bytes OutPoint.to_bytes
  simp only [List.append_assoc]
  rw [if_neg (by simp [h32, u32_le]; omega)]
  rw [List.take_left' h32, List.drop_left' h32,
    List.take_left' (u32_le_length _), le_bytes_u32, Nat.mod_eq_of_lt hvout]
  have hdrop36 :
      (i.previous_output.txid.bytes ++ (u32_le i.previous_output.vout ++
        (i.script_sig.to_bytes ++ (u32_le i.sequence ++ extra)))).drop 36 =
      i.script_sig.to_bytes ++ (u32_le i.sequence ++ extra) := by
    rw [← List.append_assoc i.previous_output.txid.bytes]
    exact List.drop_left' (by simp [h32, u32_le])
  rw [hdrop36, script_decode_encode i.script_sig hslen (u32_le i.sequence ++ extra)]
  simp only []
  rw [if_neg (by simp [h32, u32_le]; omega)]
  rw [if_neg (by simp [h32, u32_le]; omega)]
  have hdropSS :
      (i.previous_output.txid.bytes ++ (u32_le i.previous_output.vout ++
        (i.script_sig.to_bytes ++ (u32_le i.sequence ++ extra)))).drop
          (36 + i.script_sig.to_bytes.length) =
      u32_le i.sequence ++ extra := by
    rw [← List.append_assoc i.previous_output.txid.bytes,
      ← List.append_assoc (i.previous_output.txid.bytes ++ u32_le i.previous_output.vout)]
    exact List.drop_left' (by simp [h32, u32_le]; omega)
  rw [hdropSS, List.take_left' (u32_le_length _)]
  rw [if_pos (u32_le_length _), le_bytes_u32, Nat.mod_eq_of_lt hseq]
  simp only [PResult.ok.injEq, Prod.mk.injEq]
  exact ⟨trivial, by simp [h32, u32_le]; omega⟩

/-! ## Transaction round trip (against the spec-modelled decoder) -/

/-- The input-decoding loop inverts the concatenated encoding of any list of
well-formed inputs, with arbitrary trailing bytes. -/
theorem decode_inputs_encode (inputs : List TransactionInput)
    (h : ∀ i ∈ inputs, i.wf) (extra : List Nat) :
    decode_inputs inputs.length
        ((inputs.map TransactionInput.to_bytes).flatten ++ extra) =
      .ok (inputs, (inputs.map TransactionInput.to_bytes).flatten.length) := by
  induction inputs generalizing extra with
  | nil => simp [decode_inputs]
  | cons i is ih =>
    simp only [List.map_cons, List.flatten_cons, List.length_cons,
      List.append_assoc, List.length_append]
    rw [decode_inputs]
    rw [txin_decode_encode i (h i (by simp)) _]
    simp only []
    rw [List.drop_left, ih (fun j hj => h j (by simp [hj])) extra]


/-- Round trip for the whole transaction: decoding the encoding of a
well-formed transaction returns it together with the full encoded length. -/
theorem tx_decode_encode (t : BitcoinTransaction) (ht : t.wf) :
    BitcoinTransaction.from_bytes t.to_bytes = .ok (t, t.to_bytes.length) := by
  obtain ⟨hver, hlock, hlen, hin⟩ := ht
  have hp9 := cs_tb_len_le t.inputs.length
  have hp1 := cs_tb_len_pos t.inputs.length
  unfold BitcoinTransaction.from_bytes BitcoinTransaction.to_bytes
  simp only [List.append_assoc]
  rw [if_neg (by simp [u32_le])]
  rw [List.take_left' (u32_le_length _), le_bytes_u32, Nat.mod_eq_of_lt hver]
  rw [List.drop_left' (u32_le_length _)]
  rw [cs_decode_encode t.inputs.length (by omega) _]
  simp only []
  rw [List.drop_left]
  have hc : (CompactSize.new t.inputs.length).value = t.inputs.length := rfl
  rw [hc, decode_inputs_encode t.inputs hin (u32_le t.lock_time)]
  simp only []
  rw [if_neg (by simp [u32_le]; omega)]
  have hdroplock :
      ((u32_le t.version ++ ((CompactSize.new t.inputs.length).to_bytes ++
        ((t.inputs.map TransactionInput.to_bytes).flatten ++ u32_le t.lock_time)))).drop
        (4 + (CompactSize.new t.inputs.length).to_bytes.length +
          (t.inputs.map TransactionInput.to_bytes).flatten.length) =
      u32_le t.lock_time := by
    rw [← List.append_assoc (u32_le t.version),
      ← List.append_assoc (u32_le t.version ++ (CompactSize.new t.inputs.length).to_bytes)]
    exact List.drop_left' (by simp [u32_le]; omega)
  rw [hdroplock, List.take_of_length_le (by simp [u32_le]), le_bytes_u32,
    Nat.mod_eq_of_lt hlock]
  simp only [PResult.ok.injEq, Prod.mk.injEq]
  exact ⟨trivial, by simp [u32_le]; omega⟩


/-- Every error `TransactionInput.from_bytes` actually returns is
`InsufficientBytes`: the `InvalidFormat` arm guarding the sequence conversion
is unreachable, because the guarded slice always has exactly 4 bytes. -/
theorem txin_no_invalid (bytes : List Nat) (e : BitcoinError)
    (h : TransactionInput.from_bytes bytes = .err e) : e = .InsufficientBytes := by
  unfold TransactionInput.from_bytes at h
  by_cases h41 : bytes.length < 41
  · rw [if_pos h41] at h
    simp only [PResult.err.injEq] at h
    exact h.symm
  · rw [if_neg h41] at h
    cases hs : Script.from_bytes (bytes.drop 36) with
    | err e2 =>
      rw [hs] at h
      simp only [PResult.err.injEq] at h
      exact h.symm
    | crash =>
      rw [hs] at h
      simp at h
    | ok p =>
      obtain ⟨script_sig, script_bytes⟩ := p
      rw [hs] at h
      simp only [] at h
      by_cases h4 : bytes.length < 4
      · rw [if_pos h4] at h
        simp only [PResult.err.injEq] at h
        exact h.symm
      · rw [if_neg h4] at h
        by_cases hseq : bytes.length < 36 + script_bytes + 4
        · rw [if_pos hseq] at h
          simp at h
        · rw [if_neg hseq] at h
          have hlen4 : ((bytes.drop (36 + script_bytes)).take 4).length = 4 := by
            simp only [List.length_take, List.length_drop]
            omega
          rw [if_pos hlen4] at h
          simp at h

/-! ## Claim theorems -/

/-- C4: `CompactSize.from_bytes` implements the stated decoding rule for every
input slice: empty fails `InsufficientBytes`; a first byte up to 0xFC yields
that value consuming 1 byte; 0xFD requires 3 bytes (else `InsufficientBytes`),
reads 2-byte LE, `InvalidFormat` below 0xFD, consumes 3; 0xFE requires 5
bytes, `InvalidFormat` at or below 0xFFFF, consumes 5; 0xFF requires 9 bytes,
`InvalidFormat` at or below 0xFFFFFFFF, consumes 9. -/
theorem claim_C4 (bytes : List Nat) (hw : ∀ b ∈ bytes, b < 256) :
    (bytes = [] → CompactSize.from_bytes bytes = .err .InsufficientBytes) ∧
    (∀ b0 rest, bytes = b0 :: rest →
      (b0 ≤ 0xFC → CompactSize.from_bytes bytes = .ok (CompactSize.new b0, 1)) ∧
      (b0 = 0xFD →
        (bytes.length < 3 → CompactSize.from_bytes bytes = .err .InsufficientBytes) ∧
        (∀ b1 b2 r, rest = b1 :: b2 :: r →
          (b1 + 256 * b2 < 0xFD →
            CompactSize.from_bytes bytes = .err .InvalidFormat) ∧
          (¬b1 + 256 * b2 < 0xFD →
            CompactSize.from_bytes bytes = .ok (CompactSize.new (b1 + 256 * b2), 3)))) ∧
      (b0 = 0xFE →
        (bytes.length < 5 → CompactSize.from_bytes bytes = .err .InsufficientBytes) ∧
        (∀ b1 b2 b3 b4 r, rest = b1 :: b2 :: b3 :: b4 :: r →
          (b1 + 256 * b2 + 2 ^ 16 * b3 + 2 ^ 24 * b4 ≤ 0xFFFF →
            CompactSize.from_bytes bytes = .err .InvalidFormat) ∧
          (¬b1 + 256 * b2 + 2 ^ 16 * b3 + 2 ^ 24 * b4 ≤ 0xFFFF →
            CompactSize.from_bytes bytes =
              .ok (CompactSize.new (b1 + 256 * b2 + 2 ^ 16 * b3 + 2 ^ 24 * b4), 5)))) ∧
      (b0 = 0xFF →
        (bytes.length < 9 → CompactSize.from_bytes bytes = .err .InsufficientBytes) ∧
        (∀ b1 b2 b3 b4 b5 b6 b7 b8 r,
          rest = b1 :: b2 :: b3 :: b4 :: b5 :: b6 :: b7 :: b8 :: r →
          (b1 + 256 * b2 + 2 ^ 16 * b3 + 2 ^ 24 * b4 + 2 ^ 32 * b5 + 2 ^ 40 * b6 +
              2 ^ 48 * b7 + 2 ^ 56 * b8 ≤ 0xFFFFFFFF →
            CompactSize.from_bytes bytes = .err .InvalidFormat) ∧
          (¬b1 + 256 * b2 + 2 ^ 16 * b3 + 2 ^ 24 * b4 + 2 ^ 32 * b5 + 2 ^ 40 * b6 +
              2 ^ 48 * b7 + 2 ^ 56 * b8 ≤ 0xFFFFFFFF →
            CompactSize.from_bytes bytes =
              .ok (CompactSize.new (b1 + 256 * b2 + 2 ^ 16 * b3 + 2 ^ 24 * b4 +
                2 ^ 32 * b5 + 2 ^ 40 * b6 + 2 ^ 48 * b7 + 2 ^ 56 * b8), 9))))) := by
  constructor
  · intro h; subst h; exact cs_fb_nil
  · intro b0 rest hb; subst hb
    have hb0 : b0 < 256 := hw b0 (by simp)
    refine ⟨?_, ?_, ?_, ?_⟩
    · intro h1
      rw [cs_fb_one b0 rest (by omega), Nat.mod_eq_of_lt hb0]
    · intro h2; subst h2
      constructor
      · intro hlen
        apply cs_fb_fd_short
        simp only [List.length_cons] at hlen
        omega
      · intro b1 b2 r hr; subst hr
        have hb1 : b1 < 256 := hw b1 (by simp)
        have hb2 : b2 < 256 := hw b2 (by simp)
        constructor
        · intro hv
          rw [cs_fb_fd, Nat.mod_eq_of_lt hb1, Nat.mod_eq_of_lt hb2, if_pos hv]
        · intro hv
          rw [cs_fb_fd, Nat.mod_eq_of_lt hb1, Nat.mod_eq_of_lt hb2, if_neg hv]
    · intro h3; subst h3
      constructor
      · intro hlen
        apply cs_fb_fe_short
        simp only [List.length_cons] at hlen
        omega
      · intro b1 b2 b3 b4 r hr; subst hr
        have hb1 : b1 < 256 := hw b1 (by simp)
        have hb2 : b2 < 256 := hw b2 (by simp)
        have hb3 : b3 < 256 := hw b3 (by simp)
        have hb4 : b4 < 256 := hw b4 (by simp)
        have e : b1 + 256 * (b2 + 256 * (b3 + 256 * b4)) =
            b1 + 256 * b2 + 2 ^ 16 * b3 + 2 ^ 24 * b4 := by ring
        constructor
        · intro hv
          rw [cs_fb_fe, Nat.mod_eq_of_lt hb1, Nat.mod_eq_of_lt hb2,
            Nat.mod_eq_of_lt hb3, Nat.mod_eq_of_lt hb4, e, if_pos hv]
        · intro hv
          rw [cs_fb_fe, Nat.mod_eq_of_lt hb1, Nat.mod_eq_of_lt hb2,
            Nat.mod_eq_of_lt hb3, Nat.mod_eq_of_lt hb4, e, if_neg hv]
    · intro h4
      have hff : b0 = 0xFF := h4
      subst hff
      constructor
      · intro hlen
        apply cs_fb_ff_short
        simp only [List.length_cons] at hlen
        omega
      · intro b1 b2 b3 b4 b5 b6 b7 b8 r hr; subst hr
        have hb1 : b1 < 256 := hw b1 (by simp)
        have hb2 : b2 < 256 := hw b2 (by simp)
        have hb3 : b3 < 256 := hw b3 (by simp)
        have hb4 : b4 < 256 := hw b4 (by simp)
        have hb5 : b5 < 256 := hw b5 (by simp)
        have hb6 : b6 < 256 := hw b6 (by simp)
        have hb7 : b7 < 256 := hw b7 (by simp)
        have hb8 : b8 < 256 := hw b8 (by simp)
        have e : b1 + 256 * (b2 + 256 * (b3 + 256 * (b4 + 256 * (b5 + 256 *
            (b6 + 256 * (b7 + 256 * b8)))))) =
            b1 + 256 * b2 + 2 ^ 16 * b3 + 2 ^ 24 * b4 + 2 ^ 32 * b5 +
              2 ^ 40 * b6 + 2 ^ 48 * b7 + 2 ^ 56 * b8 := by ring
        constructor
        · intro hv
          rw [cs_fb_ff, Nat.mod_eq_of_lt hb1, Nat.mod_eq_of_lt hb2,
            Nat.mod_eq_of_lt hb3, Nat.mod_eq_of_lt hb4, Nat.mod_eq_of_lt hb5,
            Nat.mod_eq_of_lt hb6, Nat.mod_eq_of_lt hb7, Nat.mod_eq_of_lt hb8,
            e, if_pos hv]
        · intro hv
          rw [cs_fb_ff, Nat.mod_eq_of_lt hb1, Nat.mod_eq_of_lt hb2,
            Nat.mod_eq_of_lt hb3, Nat.mod_eq_of_lt hb4, Nat.mod_eq_of_lt hb5,
            Nat.mod_eq_of_lt hb6, Nat.mod_eq_of_lt hb7, Nat.mod_eq_of_lt hb8,
            e, if_neg hv]

/-- C5: `CompactSize.to_bytes` follows the four-case encoding rule (1-byte
direct; 0xFD + 2-byte LE; 0xFE + 4-byte LE; 0xFF + 8-byte LE), with the four
boundary encodings 0xFC, 0xFD, 0x10000 and 0x100000000 as stated. -/
theorem claim_C5 :
    (∀ v : Nat, v ≤ 0xFC → (CompactSize.new v).to_bytes = [v]) ∧
    (∀ v : Nat, 0xFD ≤ v → v ≤ 0xFFFF →
      (CompactSize.new v).to_bytes = [0xFD, v % 256, v / 256]) ∧
    (∀ v : Nat, 0x10000 ≤ v → v ≤ 0xFFFFFFFF →
      (CompactSize.new v).to_bytes =
        [0xFE, v % 256, v / 256 % 256, v / 2 ^ 16 % 256, v / 2 ^ 24]) ∧
    (∀ v : Nat, 0x100000000 ≤ v → v < 2 ^ 64 →
      (CompactSize.new v).to_bytes =
        [0xFF, v % 256, v / 256 % 256, v / 2 ^ 16 % 256, v / 2 ^ 24 % 256,
         v / 2 ^ 32 % 256, v / 2 ^ 40 % 256, v / 2 ^ 48 % 256, v / 2 ^ 56]) ∧
    (CompactSize.new 0xFC).to_bytes = [0xFC] ∧
    (CompactSize.new 0xFD).to_bytes = [0xFD, 0xFD, 0x00] ∧
    (CompactSize.new 0x10000).to_bytes = [0xFE, 0x00, 0x00, 0x01, 0x00] ∧
    (CompactSize.new 0x100000000).to_bytes = [0xFF, 0, 0, 0, 0, 1, 0, 0, 0] := by
  refine ⟨?_, ?_, ?_, ?_, by decide, by decide, by decide, by decide⟩
  · intro v h1
    exact cs_tb_one v h1
  · intro v hlo hhi
    rw [cs_tb_fd v (by omega) hhi]
    have e : v / 256 % 256 = v / 256 := by omega
    rw [e]
  · intro v hlo hhi
    rw [cs_tb_fe v (by omega) hhi]
    have e : v / 2 ^ 24 % 256 = v / 2 ^ 24 := by omega
    rw [e]
  · intro v hlo hhi
    rw [cs_tb_ff v (by omega)]
    have e : v / 2 ^ 56 % 256 = v / 2 ^ 56 := by omega
    rw [e]

/-- C1: round trip at every level — decoding the encoding of any well-formed
entity (CompactSize, OutPoint, Script, TransactionInput, BitcoinTransaction)
succeeds and returns the entity together with its encoded length. The
transaction level is checked against the spec-modelled
`BitcoinTransaction.from_bytes` (the source body is `todo!()`). -/
theorem claim_C1 :
    (∀ c : CompactSize, c.wf →
      CompactSize.from_bytes c.to_bytes = .ok (c, c.to_bytes.length)) ∧
    (∀ o : OutPoint, o.wf →
      OutPoint.from_bytes o.to_bytes = .ok (o, o.to_bytes.length)) ∧
    (∀ s : Script, s.wf →
      Script.from_bytes s.to_bytes = .ok (s, s.to_bytes.length)) ∧
    (∀ i : TransactionInput, i.wf →
      TransactionInput.from_bytes i.to_bytes = .ok (i, i.to_bytes.length)) ∧
    (∀ t : BitcoinTransaction, t.wf →
      BitcoinTransaction.from_bytes t.to_bytes = .ok (t, t.to_bytes.length)) := by
  refine ⟨?_, ?_, ?_, ?_, ?_⟩
  · intro c hc
    have h := cs_decode_encode c.value hc []
    simpa using h
  · intro o ho
    have h := op_decode_encode o ho []
    have h36 : o.to_bytes.length = 36 := by
      obtain ⟨⟨h32, _⟩, _⟩ := ho
      simp [OutPoint.to_bytes, h32, u32_le]
    rw [h36]
    simpa using h
  · intro s hs
    have h := script_decode_encode s hs.1 []
    simpa using h
  · intro i hi
    have h := txin_decode_encode i hi []
    simpa using h
  · intro t ht
    exact tx_decode_encode t ht

/-- C2 (code bug, evaluation at failing inputs): decode operations can crash
on malformed input. `TransactionInput.from_bytes` panics on a 42-byte slice
whose script consumes all remaining bytes (the source checks `bytes.len() < 4`
instead of the bytes remaining past the script span, then slices out of
range); `Script.from_bytes` panics when the CompactSize value makes
`var_int_len + script_len` overflow `usize`. -/
theorem claim_C2 :
    TransactionInput.from_bytes (List.replicate 36 0 ++ [5, 0, 0, 0, 0, 0]) =
        .crash ∧
      Script.from_bytes [0xFF, 0xF7, 0xFF, 0xFF, 0xFF, 0xFF, 0xFF, 0xFF, 0xFF] =
        .crash :=
  ⟨by decide, by decide⟩

/-- C3 (code bug, evaluation at the failing input): on a 41-byte slice whose
script consumes 5 bytes there are 0 bytes left for the sequence; the claim
(and spec) require `InsufficientBytes`, but the code panics slicing
`bytes[41..45]`. -/
theorem claim_C3 :
    TransactionInput.from_bytes (List.replicate 36 0 ++ [4, 0, 0, 0, 0]) =
      .crash := by
  decide

/-- C6: whenever the CompactSize prefix decode fails — with either error
kind — `Script.from_bytes` fails and reports `InsufficientBytes`. -/
theorem claim_C6 (bytes : List Nat) (e : BitcoinError)
    (h : CompactSize.from_bytes bytes = .err e) :
    Script.from_bytes bytes = .err .InsufficientBytes := by
  unfold Script.from_bytes
  rw [h]

/-- Witness for C6: an `InvalidFormat` CompactSize failure surfaces from
`Script.from_bytes` as `InsufficientBytes`. -/
theorem claim_C6_witness :
    CompactSize.from_bytes [0xFD, 0, 0] = .err .InvalidFormat ∧
      Script.from_bytes [0xFD, 0, 0] = .err .InsufficientBytes :=
  ⟨by decide, claim_C6 [0xFD, 0, 0] .InvalidFormat (by decide)⟩

/-- C7 (code bug, evaluation at the failing input): on `[0xFF; 9]` the
CompactSize prefix decodes to L = 2^64 - 1 consuming 9 bytes and 0 bytes
follow, so the claim (and spec) require `InsufficientBytes`; the code instead
crashes on the `usize` overflow of `var_int_len + script_len`. -/
theorem claim_C7 :
    Script.from_bytes (List.replicate 9 0xFF) = .crash := by
  decide

/-- C8: `BitcoinTransaction.to_bytes` is the concatenation of the 4-byte LE
version, the CompactSize encoding of the input count, each input's bytes in
order, and the 4-byte LE lock_time; the transaction (version 1, no inputs,
lock_time 0) encodes to the 9 bytes 01 00 00 00 00 00 00 00 00. -/
theorem claim_C8 :
    (∀ t : BitcoinTransaction, t.to_bytes =
      [t.version % 256, t.version / 256 % 256,
       t.version / 2 ^ 16 % 256, t.version / 2 ^ 24 % 256] ++
      (CompactSize.new t.inputs.length).to_bytes ++
      (t.inputs.map TransactionInput.to_bytes).flatten ++
      [t.lock_time % 256, t.lock_time / 256 % 256,
       t.lock_time / 2 ^ 16 % 256, t.lock_time / 2 ^ 24 % 256]) ∧
    (BitcoinTransaction.new 1 [] 0).to_bytes = [1, 0, 0, 0, 0, 0, 0, 0, 0] := by
  constructor
  · intro t
    simp [BitcoinTransaction.to_bytes, u32_le]
  · decide

/-- C9: decode-encode canonicity of CompactSize — every accepted decode
`(c, n)` has `c.to_bytes` of length `n` equal to the first `n` input bytes. -/
theorem claim_C9 (bytes : List Nat) (hw : ∀ x ∈ bytes, x < 256)
    (c : CompactSize) (n : Nat)
    (h : CompactSize.from_bytes bytes = .ok (c, n)) :
    c.to_bytes.length = n ∧ c.to_bytes = bytes.take n :=
  cs_canonical bytes hw c n h

/-- Witness for C9 on a concrete accepted input with trailing bytes. -/
theorem claim_C9_witness :
    (CompactSize.new 253).to_bytes.length = 3 ∧
      (CompactSize.new 253).to_bytes = List.take 3 [0xFD, 0xFD, 0, 9, 9] :=
  claim_C9 [0xFD, 0xFD, 0, 9, 9] (by decide) (CompactSize.new 253) 3 (by decide)

/-- C10 counterexample: `TransactionInput.from_bytes` does not return a
success-or-InsufficientBytes result on every input — on this 41-byte input
(script consumes 3 bytes, 2 bytes remain for the 4-byte sequence) the Rust
code panics instead of returning anything. -/
theorem claim_C10_counterexample :
    TransactionInput.from_bytes (List.replicate 36 0 ++ [2, 0, 0, 0, 0]) =
      .crash := by
  decide

/-- C10 (amended): `TransactionInput.from_bytes` never returns
`InvalidFormat` — every error it actually returns is `InsufficientBytes`;
the `InvalidFormat` arm guarding the sequence `try_into` is unreachable. -/
theorem claim_C10 (bytes : List Nat) (e : BitcoinError)
    (h : TransactionInput.from_bytes bytes = .err e) :
    e = .InsufficientBytes :=
  txin_no_invalid bytes e h

/-- Witness for C10 at the empty input. -/
theorem claim_C10_witness :
    TransactionInput.from_bytes [] = .err .InsufficientBytes ∧
      BitcoinError.InsufficientBytes = BitcoinError.InsufficientBytes :=
  ⟨by decide, claim_C10 [] .InsufficientBytes (by decide)⟩

/-- Witness for C4: the minimal 3-byte encoding of 253 decodes to 253. -/
theorem claim_C4_witness :
    CompactSize.from_bytes [0xFD, 0xFD, 0] =
      .ok (CompactSize.new (0xFD + 256 * 0), 3) :=
  ((((claim_C4 [0xFD, 0xFD, 0] (by decide)).2 0xFD [0xFD, 0] rfl).2.1
    rfl).2 0xFD 0 [] rfl).2 (by decide)

/-- Witness for C5: one concrete value per encoder branch. -/
theorem claim_C5_witness :
    (CompactSize.new 0x42).to_bytes = [0x42] ∧
      (CompactSize.new 0x1234).to_bytes = [0xFD, 0x34, 0x12] ∧
      (CompactSize.new 0xABCDEF01).to_bytes = [0xFE, 0x01, 0xEF, 0xCD, 0xAB] ∧
      (CompactSize.new 0x0102030405060708).to_bytes =
        [0xFF, 0x08, 0x07, 0x06, 0x05, 0x04, 0x03, 0x02, 0x01] := by
  refine ⟨claim_C5.1 0x42 (by decide), ?_, ?_, ?_⟩
  · have h := claim_C5.2.1 0x1234 (by decide) (by decide)
    simpa using h
  · have h := claim_C5.2.2.1 0xABCDEF01 (by decide) (by decide)
    simpa using h
  · have h := claim_C5.2.2.2.1 0x0102030405060708 (by decide) (by decide)
    simpa using h

/-- Witness for C1: one concrete entity per level. -/
theorem claim_C1_witness :
    CompactSize.from_bytes (CompactSize.new 300).to_bytes =
      .ok (CompactSize.new 300, (CompactSize.new 300).to_bytes.length) ∧
    OutPoint.from_bytes (OutPoint.new (List.replicate 32 0xAB) 7).to_bytes =
      .ok (OutPoint.new (List.replicate 32 0xAB) 7,
        (OutPoint.new (List.replicate 32 0xAB) 7).to_bytes.length) ∧
    Script.from_bytes (Script.new [0xAA, 0xBB, 0xCC]).to_bytes =
      .ok (Script.new [0xAA, 0xBB, 0xCC],
        (Script.new [0xAA, 0xBB, 0xCC]).to_bytes.length) ∧
    TransactionInput.from_bytes
        (TransactionInput.new (OutPoint.new (List.replicate 32 1) 2)
          (Script.new [3, 4]) 5).to_bytes =
      .ok (TransactionInput.new (OutPoint.new (List.replicate 32 1) 2)
          (Script.new [3, 4]) 5,
        (TransactionInput.new (OutPoint.new (List.replicate 32 1) 2)
          (Script.new [3, 4]) 5).to_bytes.length) ∧
    BitcoinTransaction.from_bytes
        (BitcoinTransaction.new 1
          [TransactionInput.new (OutPoint.new (List.replicate 32 1) 2)
            (Script.new [3, 4]) 5] 0).to_bytes =
      .ok (BitcoinTransaction.new 1
          [TransactionInput.new (OutPoint.new (List.replicate 32 1) 2)
            (Script.new [3, 4]) 5] 0,
        (BitcoinTransaction.new 1
          [TransactionInput.new (OutPoint.new (List.replicate 32 1) 2)
            (Script.new [3, 4]) 5] 0).to_bytes.length) :=
  ⟨claim_C1.1 _ (by decide), claim_C1.2.1 _ (by decide),
   claim_C1.2.2.1 _ (by decide), claim_C1.2.2.2.1 _ (by decide),
   claim_C1.2.2.2.2 _ (by decide)⟩
